import Mathlib

/-!
Shallow embedding of the numeric core of src/app.py (a hedging-analysis
dashboard).  Machine floats are modelled by rationals; numpy vectorised
expressions become List.map / List.zipWith over rational lists; the pandas
return/beta pipeline becomes explicit list functions on already
date-aligned close series.  The infinite float value produced by the
cross-hedge breakeven is modelled by an explicit sum type so that
non-finite results stay distinguishable from finite ones.
-/

/-- Model of np.linspace a b num: num evenly spaced samples from a to b,
endpoints included (for num at least 2). -/
def linspace (a b : ℚ) (num : ℕ) : List ℚ :=
  (List.range num).map (fun i : ℕ => a + (b - a) * (i : ℚ) / ((num : ℚ) - 1))

/-- Model of src/app.py line 259:
price_range = np.linspace(latest_price * 0.8, latest_price * 1.2, 100). -/
def price_range (spot : ℚ) : List ℚ :=
  linspace (spot * (4 / 5)) (spot * (6 / 5)) 100

/-- Model of src/app.py line 260: stock_pnl = (price_range - latest_price) * shares,
vectorised over the price grid. -/
def stock_pnl (prices : List ℚ) (spot shares : ℚ) : List ℚ :=
  prices.map (fun s => (s - spot) * shares)

/-- Model of src/app.py line 261:
put_pnl = (np.maximum(direct_k - price_range, 0) - direct_p) * shares. -/
def put_pnl (prices : List ℚ) (k p shares : ℚ) : List ℚ :=
  prices.map (fun s => (max (k - s) 0 - p) * shares)

/-- Model of src/app.py line 262: hedged_pnl = stock_pnl + put_pnl
(elementwise sum of the two equally long numpy vectors). -/
def hedged_pnl (prices : List ℚ) (spot k p shares : ℚ) : List ℚ :=
  List.zipWith (fun a b => a + b) (stock_pnl prices spot shares) (put_pnl prices k p shares)

/-- Model of src/app.py line 265: breakeven_direct = latest_price + direct_p. -/
def breakeven_direct (spot p : ℚ) : ℚ :=
  spot + p

/-- Model of src/app.py line 266:
max_loss_direct = (latest_price - direct_k + direct_p) * shares
if latest_price > direct_k else direct_p * shares.
Note the conditional: the source special-cases strike above spot. -/
def max_loss_direct (spot k p shares : ℚ) : ℚ :=
  if k < spot then (spot - k + p) * shares else p * shares

/-- Sample mean of a list (pandas mean). Division by zero on the empty
list yields 0 in ℚ, never reached by the claims. -/
def mean (xs : List ℚ) : ℚ :=
  xs.sum / (xs.length : ℚ)

/-- Sample variance with ddof = 1, as pandas Series.var uses
(src/app.py line 90). -/
def svar (xs : List ℚ) : ℚ :=
  (xs.map (fun x => (x - mean xs) ^ 2)).sum / ((xs.length : ℚ) - 1)

/-- Sample covariance with ddof = 1 over paired observations, as pandas
Series.cov uses (src/app.py line 89). -/
def scov (ps : List (ℚ × ℚ)) : ℚ :=
  (ps.map (fun q =>
      (q.1 - mean (ps.map Prod.fst)) * (q.2 - mean (ps.map Prod.snd)))).sum
    / ((ps.length : ℚ) - 1)

/-- Model of pandas Series.pct_change().dropna(): simple period returns
r i = v i / v (i-1) - 1 (src/app.py lines 82 and 83). -/
def pct_change (xs : List ℚ) : List ℚ :=
  List.zipWith (fun prev cur => cur / prev - 1) xs xs.tail

/-- Model of calculate_portfolio_beta, src/app.py lines 69 to 93, applied
to two already date-aligned value series: compute returns of each, pair
them (the inner join of the two return series on their common dates,
line 85), return 0 when fewer than 2 paired observations remain
(line 87), otherwise covariance over variance with 0 substituted when the
index variance is zero (line 92).  The pandas reindex and ffill steps are
the identity on equally dated series, the case every claim quantifies
over. -/
def calculate_portfolio_beta (port idx : List ℚ) : ℚ :=
  if ((pct_change port).zip (pct_change idx)).length < 2 then 0
  else if svar (((pct_change port).zip (pct_change idx)).map Prod.snd) = 0 then 0
  else
    scov ((pct_change port).zip (pct_change idx))
      / svar (((pct_change port).zip (pct_change idx)).map Prod.snd)

/-- A Python float result that is either finite or the infinite float value. -/
inductive PyFloat where
  | fin (q : ℚ)
  | inf
deriving DecidableEq

/-- Model of src/app.py line 299:
breakeven_cross_1 = latest_price + (p1 / beta) if beta != 0 else the Python float infinity. -/
def breakeven_cross_1 (price p beta : ℚ) : PyFloat :=
  if beta ≠ 0 then PyFloat.fin (price + p / beta) else PyFloat.inf

/-- Model of src/app.py line 282:
hedge_units = beta * (portfolio_value / latest_price) if latest_price > 0 else 0. -/
def hedge_units (beta pv price : ℚ) : ℚ :=
  if 0 < price then beta * (pv / price) else 0

/-- Model of src/app.py line 296:
put_pnl1 = (np.maximum(k1 - index_price_range, 0) - p1) * hedge_units. -/
def put_pnl1 (grid : List ℚ) (k p units : ℚ) : List ℚ :=
  grid.map (fun s => (max (k - s) 0 - p) * units)

/-- A raw input row for the cleaning step: a date (encoded as a natural
number preserving order) and a close value that is either present or the
missing marker (NaN after a failed parse).  Mirrors the per-ticker close
series extracted at src/app.py line 217. -/
structure RawRow where
  date : ℕ
  close : Option ℚ
deriving DecidableEq

/-- Model of src/app.py line 218: df = df_close.dropna().to_frame(...).
Rows whose close is the missing marker are dropped; all other rows are
kept in their input order.  No sorting step appears in the source. -/
def clean (rows : List RawRow) : List (ℕ × ℚ) :=
  rows.filterMap (fun r => r.close.map (fun c => (r.date, c)))

/-- Ambient process state a Python expression could in principle read:
a wall clock and a random seed.  The engine statements of src/app.py
(lines 69 to 93 and 259 to 266 and 282 to 300) reference neither, so the
embedded engine below takes an EngineEnv and ignores it; the determinism
claim is then environment independence of the run. -/
structure EngineEnv where
  wallClock : ℕ
  randomSeed : ℕ
deriving DecidableEq

/-- One engine run: every numeric engine computation of src/app.py
(payoff curves, direct breakeven and max loss, portfolio beta, hedge
units, cross breakeven) evaluated from the given inputs under the given
ambient environment. -/
def engineRun (_env : EngineEnv) (spot k p shares pv iprice b : ℚ)
    (port idx : List ℚ) :
    List ℚ × List ℚ × List ℚ × ℚ × ℚ × ℚ × ℚ × PyFloat :=
  (price_range spot,
   stock_pnl (price_range spot) spot shares,
   hedged_pnl (price_range spot) spot k p shares,
   breakeven_direct spot p,
   max_loss_direct spot k p shares,
   calculate_portfolio_beta port idx,
   hedge_units b pv iprice,
   breakeven_cross_1 iprice p b)

/-- Ten raw rows, sorted by date, of which exactly the seventh has a
missing close value: the end to end cleaning scenario of the spec. -/
def rows10 : List RawRow :=
  [⟨1, some 10⟩, ⟨2, some 11⟩, ⟨3, some 12⟩, ⟨4, some 13⟩, ⟨5, some 14⟩,
   ⟨6, some 15⟩, ⟨7, none⟩, ⟨8, some 17⟩, ⟨9, some 18⟩, ⟨10, some 19⟩]

/-- C1: the source conditional at src/app.py line 266 contradicts the
specified unconditional linear formula.  At spot 100, strike 110,
premium 5, shares 1 the source returns premium times shares, 5, while the
specified formula (spot - strike + premium) * shares gives -5. -/
theorem max_loss_direct_itm_eval :
    max_loss_direct 100 110 5 1 = 5 ∧
    ((100 : ℚ) - 110 + 5) * 1 = -5 ∧
    max_loss_direct 100 110 5 1 ≠ ((100 : ℚ) - 110 + 5) * 1 := by
  refine ⟨by norm_num [max_loss_direct], by norm_num, ?_⟩
  norm_num [max_loss_direct]

/-- C6: the protective put breakeven is exactly spot plus premium,
src/app.py line 265. -/
theorem breakeven_direct_formula (spot p : ℚ) :
    breakeven_direct spot p = spot + p := rfl

/-- Indexing a mapped list below its length evaluates the function at the
indexed element. -/
lemma getD_map_of_lt (f : ℚ → ℚ) (l : List ℚ) (i : ℕ) (h : i < l.length) :
    (l.map f).getD i 0 = f (l.getD i 0) := by
  induction l generalizing i with
  | nil => simp at h
  | cons a t ih =>
    cases i with
    | zero => rfl
    | succ j => simpa using ih j (by simpa using h)

/-- Indexing the elementwise sum of two maps over the same list below its
length evaluates both functions at the indexed element. -/
lemma getD_zipWith_add (f g : ℚ → ℚ) (l : List ℚ) (i : ℕ) (h : i < l.length) :
    (List.zipWith (fun a b => a + b) (l.map f) (l.map g)).getD i 0
      = f (l.getD i 0) + g (l.getD i 0) := by
  induction l generalizing i with
  | nil => simp at h
  | cons a t ih =>
    cases i with
    | zero => rfl
    | succ j => simpa using ih j (by simpa using h)

/-- Closed form of one linspace sample. -/
lemma linspace_getD (a b : ℚ) (num i : ℕ) (h : i < num) :
    (linspace a b num).getD i 0 = a + (b - a) * i / ((num : ℚ) - 1) := by
  unfold linspace
  rw [List.getD_eq_getElem _ _
    (by rw [List.length_map, List.length_range]; exact h)]
  rw [List.getElem_map, List.getElem_range]

lemma price_range_length (spot : ℚ) : (price_range spot).length = 100 := by
  rw [price_range, linspace, List.length_map, List.length_range]

/-- Closed form of one point of the direct hedging price grid. -/
lemma price_range_getD (spot : ℚ) (i : ℕ) (h : i < 100) :
    (price_range spot).getD i 0
      = spot * (4 / 5) + (spot * (6 / 5) - spot * (4 / 5)) * i / 99 := by
  rw [price_range, linspace_getD _ _ _ i h]
  norm_num

/-- C5: the direct hedge price grid has 100 evenly spaced points running
from spot times 0.8 up to spot times 1.2 inclusive, and at every grid
index the unhedged and hedged profit and loss follow the stated formulas
(src/app.py lines 259 to 262). -/
theorem protective_put_curve_spec (spot shares k p : ℚ)
    (hs : 0 < spot) (hn : 0 ≤ shares) :
    (price_range spot).length = 100 ∧
    (price_range spot).getD 0 0 = spot * (4 / 5) ∧
    (price_range spot).getD 99 0 = spot * (6 / 5) ∧
    (∀ i : ℕ, i + 1 < 100 →
      (price_range spot).getD (i + 1) 0 - (price_range spot).getD i 0
        = (spot * (6 / 5) - spot * (4 / 5)) / 99) ∧
    (∀ i : ℕ, i < 100 →
      (stock_pnl (price_range spot) spot shares).getD i 0
        = ((price_range spot).getD i 0 - spot) * shares) ∧
    (∀ i : ℕ, i < 100 →
      (hedged_pnl (price_range spot) spot k p shares).getD i 0
        = ((price_range spot).getD i 0 - spot) * shares
          + (max (k - (price_range spot).getD i 0) 0 - p) * shares) := by
  refine ⟨price_range_length spot, ?_, ?_, ?_, ?_, ?_⟩
  · rw [price_range_getD spot 0 (by norm_num)]; push_cast; ring
  · rw [price_range_getD spot 99 (by norm_num)]; push_cast; ring
  · intro i hi
    rw [price_range_getD spot (i + 1) hi, price_range_getD spot i (by omega)]
    push_cast
    field_simp
    ring
  · intro i hi
    have h : i < (price_range spot).length := by rw [price_range_length]; exact hi
    simpa only [stock_pnl] using getD_map_of_lt (fun s => (s - spot) * shares) _ i h
  · intro i hi
    have h : i < (price_range spot).length := by rw [price_range_length]; exact hi
    simpa only [hedged_pnl, stock_pnl, put_pnl] using
      getD_zipWith_add (fun s => (s - spot) * shares)
        (fun s => (max (k - s) 0 - p) * shares) (price_range spot) i h

/-- C5 witness: the curve properties instantiated at spot 100, 50 shares,
strike 95, premium 2, checked at grid indices 0, 1 and 99. -/
theorem protective_put_curve_spec_witness :
    (price_range 100).length = 100 ∧
    (price_range 100).getD 0 0 = 100 * (4 / 5) ∧
    (price_range 100).getD 99 0 = 100 * (6 / 5) ∧
    (price_range 100).getD 1 0 - (price_range 100).getD 0 0
      = ((100 : ℚ) * (6 / 5) - 100 * (4 / 5)) / 99 ∧
    (stock_pnl (price_range 100) 100 50).getD 0 0
      = ((price_range 100).getD 0 0 - 100) * 50 ∧
    (hedged_pnl (price_range 100) 100 95 2 50).getD 0 0
      = ((price_range 100).getD 0 0 - 100) * 50
        + (max (95 - (price_range 100).getD 0 0) 0 - 2) * 50 := by
  obtain ⟨h1, h2, h3, h4, h5, h6⟩ :=
    protective_put_curve_spec 100 50 95 2 (by norm_num) (by norm_num)
  exact ⟨h1, h2, h3, h4 0 (by norm_num), h5 0 (by norm_num), h6 0 (by norm_num)⟩

/-- C4: at spot 100, strike 110, premium 5, shares 1 the grid lower bound
80 is below the strike, the hedged curve value at the grid minimum is 5,
the negated value of the specified linear cap, yet the source
max_loss_direct returns 5 as well (its in-the-money special case), so the
curve floor does not equal the negated source value. -/
theorem hedged_floor_itm_eval :
    0 < (100 : ℚ) ∧ (0 : ℚ) ≤ 1 ∧ (100 : ℚ) * (4 / 5) ≤ 110 ∧
    (hedged_pnl (price_range 100) 100 110 5 1).getD 0 0 = 5 ∧
    max_loss_direct 100 110 5 1 = 5 ∧
    (hedged_pnl (price_range 100) 100 110 5 1).getD 0 0
      = -(((100 : ℚ) - 110 + 5) * 1) ∧
    (hedged_pnl (price_range 100) 100 110 5 1).getD 0 0
      ≠ -(max_loss_direct 100 110 5 1) := by
  have h0 : (0 : ℕ) < (price_range 100).length := by
    rw [price_range_length]; norm_num
  have hg : (price_range 100).getD 0 0 = 80 := by
    rw [price_range_getD 100 0 (by norm_num)]; push_cast; ring
  have hh : (hedged_pnl (price_range 100) 100 110 5 1).getD 0 0 = 5 := by
    have := getD_zipWith_add (fun s => (s - (100 : ℚ)) * 1)
      (fun s => (max ((110 : ℚ) - s) 0 - 5) * 1) (price_range 100) 0 h0
    simp only [hedged_pnl, stock_pnl, put_pnl] at *
    rw [this, hg]
    rw [max_eq_left (by norm_num : (0 : ℚ) ≤ 110 - 80)]
    norm_num
  refine ⟨by norm_num, by norm_num, by norm_num, hh, ?_, ?_, ?_⟩
  · norm_num [max_loss_direct]
  · rw [hh]; norm_num
  · rw [hh]; norm_num [max_loss_direct]

/-- C10: on any price grid the long put leg profit and loss is bounded
below by the negated premium cost, both for the direct leg (src/app.py
line 261) and the cross-hedge leg (line 296), hence the hedged curve is
never more than premium times shares below the unhedged curve. -/
theorem put_leg_bounded_below (grid : List ℚ) (spot k p n u : ℚ)
    (hp : 0 ≤ p) (hn : 0 ≤ n) (hu : 0 ≤ u) :
    (∀ x ∈ put_pnl grid k p n, -(p * n) ≤ x) ∧
    (∀ x ∈ put_pnl1 grid k p u, -(p * u) ≤ x) ∧
    (∀ i : ℕ, i < grid.length →
      (stock_pnl grid spot n).getD i 0 - p * n
        ≤ (hedged_pnl grid spot k p n).getD i 0) := by
  have key : ∀ s m : ℚ, 0 ≤ m → -(p * m) ≤ (max (k - s) 0 - p) * m := by
    intro s m hm
    have h0 : (0 : ℚ) - p ≤ max (k - s) 0 - p :=
      sub_le_sub_right (le_max_right (k - s) 0) p
    calc -(p * m) = (0 - p) * m := by ring
    _ ≤ (max (k - s) 0 - p) * m := mul_le_mul_of_nonneg_right h0 hm
  refine ⟨?_, ?_, ?_⟩
  · intro x hx
    simp only [put_pnl, List.mem_map] at hx
    obtain ⟨s, _, rfl⟩ := hx
    exact key s n hn
  · intro x hx
    simp only [put_pnl1, List.mem_map] at hx
    obtain ⟨s, _, rfl⟩ := hx
    exact key s u hu
  · intro i hi
    have hst : (stock_pnl grid spot n).getD i 0 = (grid.getD i 0 - spot) * n := by
      simp only [stock_pnl]
      exact getD_map_of_lt (fun s => (s - spot) * n) grid i hi
    have hh : (hedged_pnl grid spot k p n).getD i 0
        = (grid.getD i 0 - spot) * n + (max (k - grid.getD i 0) 0 - p) * n := by
      simp only [hedged_pnl, stock_pnl, put_pnl]
      exact getD_zipWith_add (fun s => (s - spot) * n)
        (fun s => (max (k - s) 0 - p) * n) grid i hi
    rw [hst, hh]
    have := key (grid.getD i 0) n hn
    linarith

/-- C10 witness: the bounds instantiated on the two point grid 80, 100
with spot 100, strike 95, premium 2, 50 shares and 3 hedge units. -/
theorem put_leg_bounded_below_witness :
    -((2 : ℚ) * 50) ≤ (650 : ℚ) ∧
    -((2 : ℚ) * 3) ≤ (39 : ℚ) ∧
    (stock_pnl [80, 100] 100 50).getD 0 0 - 2 * 50
      ≤ (hedged_pnl [80, 100] 100 95 2 50).getD 0 0 := by
  obtain ⟨h1, h2, h3⟩ :=
    put_leg_bounded_below [80, 100] 100 95 2 50 3
      (by norm_num) (by norm_num) (by norm_num)
  refine ⟨h1 650 ?_, h2 39 ?_, h3 0 (by norm_num)⟩
  · simp only [put_pnl, List.map_cons, List.map_nil]
    norm_num [max_eq_left]
  · simp only [put_pnl1, List.map_cons, List.map_nil]
    norm_num [max_eq_left]

/-- Zipping a list with itself pairs every element with itself. -/
lemma zip_self (l : List ℚ) : l.zip l = l.map (fun x => (x, x)) := by
  induction l with
  | nil => rfl
  | cons a t ih => simp [List.zip_cons_cons, ih]

lemma map_fst_zip_self (l : List ℚ) : (l.zip l).map Prod.fst = l := by
  induction l with
  | nil => rfl
  | cons a t ih => simp [List.zip_cons_cons, ih]

lemma map_snd_zip_self (l : List ℚ) : (l.zip l).map Prod.snd = l := by
  induction l with
  | nil => rfl
  | cons a t ih => simp [List.zip_cons_cons, ih]

/-- Sample covariance of a series with itself is its sample variance. -/
lemma scov_self (l : List ℚ) : scov (l.zip l) = svar l := by
  unfold scov svar
  rw [map_fst_zip_self, map_snd_zip_self, zip_self, List.map_map, List.length_map]
  have hmap : List.map ((fun q : ℚ × ℚ => (q.1 - mean l) * (q.2 - mean l)) ∘ fun x => (x, x)) l
      = List.map (fun x => (x - mean l) ^ 2) l := by
    apply List.map_congr_left
    intro x _
    simp only [Function.comp_apply]
    ring
  rw [hmap]

/-- C7: the beta of a value series against itself is exactly 1 whenever
at least 2 return observations exist and the return variance is not zero
(src/app.py lines 69 to 93). -/
theorem beta_self_equals_one (xs : List ℚ)
    (h2 : 2 ≤ (pct_change xs).length) (hv : svar (pct_change xs) ≠ 0) :
    calculate_portfolio_beta xs xs = 1 := by
  have hlen : ¬ ((pct_change xs).zip (pct_change xs)).length < 2 := by
    rw [List.length_zip, min_self]
    omega
  unfold calculate_portfolio_beta
  rw [map_snd_zip_self, scov_self, if_neg hlen, if_neg hv]
  exact div_self hv

/-- C7 witness: the self beta of the series 1, 2, 3, whose two returns
are 1 and one half with nonzero sample variance, is 1. -/
theorem beta_self_equals_one_witness :
    2 ≤ (pct_change [(1 : ℚ), 2, 3]).length ∧
    svar (pct_change [(1 : ℚ), 2, 3]) ≠ 0 ∧
    calculate_portfolio_beta [1, 2, 3] [1, 2, 3] = 1 := by
  have hp : pct_change [(1 : ℚ), 2, 3] = [1, 1 / 2] := by
    norm_num [pct_change]
  have hv : svar (pct_change [(1 : ℚ), 2, 3]) ≠ 0 := by
    rw [hp]
    norm_num [svar, mean]
  exact ⟨by rw [hp]; norm_num, hv,
    beta_self_equals_one [1, 2, 3] (by rw [hp]; norm_num) hv⟩

/-- C3 counterexample: with a single aligned price point there are zero
return observations, fewer than 2, and calculate_portfolio_beta returns
the numeric value 0 rather than failing with a distinguishable error: in
the source, line 87 is a plain return 0. -/
theorem beta_single_row_numeric_result :
    ((pct_change [(100 : ℚ)]).zip (pct_change [(100 : ℚ)])).length < 2 ∧
    calculate_portfolio_beta [100] [100] = 0 := by decide

/-- C3 amended: whenever fewer than 2 aligned return observations remain,
calculate_portfolio_beta returns the numeric sentinel 0 (src/app.py
line 87); no error value exists in its result type. -/
theorem beta_insufficient_data_returns_zero (port idx : List ℚ)
    (h : ((pct_change port).zip (pct_change idx)).length < 2) :
    calculate_portfolio_beta port idx = 0 := by
  unfold calculate_portfolio_beta
  rw [if_pos h]

/-- C3 witness: a two point series has one return observation, and the
beta of that series against itself is the sentinel 0. -/
theorem beta_insufficient_data_witness :
    ((pct_change [(50 : ℚ), 60]).zip (pct_change [(50 : ℚ), 60])).length < 2 ∧
    calculate_portfolio_beta [50, 60] [50, 60] = 0 :=
  ⟨by decide, beta_insufficient_data_returns_zero [50, 60] [50, 60] (by decide)⟩

/-- C2 counterexample: at beta 0 the cross-hedge breakeven of src/app.py
line 299 is the infinite float value, not the sentinel 0 the claim
specifies, so a non-finite value reaches the caller. -/
theorem breakeven_cross_nonfinite_counterexample :
    breakeven_cross_1 100 5 0 = PyFloat.inf ∧
    breakeven_cross_1 100 5 0 ≠ PyFloat.fin 0 := by decide

/-- C2 amended: the hedge unit computation substitutes 0 for a
non-positive index price (src/app.py line 282) and the beta computation
substitutes 0 for a zero index return variance (line 92), but the
cross-hedge breakeven substitutes the infinite float value, not 0, when
beta is 0 (line 299); it is finite for every nonzero beta. -/
theorem engine_sentinel_behavior :
    (∀ b pv ip : ℚ, ip ≤ 0 → hedge_units b pv ip = 0) ∧
    (∀ port idx : List ℚ,
      svar (((pct_change port).zip (pct_change idx)).map Prod.snd) = 0 →
      calculate_portfolio_beta port idx = 0) ∧
    (∀ price p b : ℚ, b ≠ 0 →
      breakeven_cross_1 price p b = PyFloat.fin (price + p / b)) ∧
    (∀ price p : ℚ, breakeven_cross_1 price p 0 = PyFloat.inf) := by
  refine ⟨?_, ?_, ?_, ?_⟩
  · intro b pv ip h
    rw [hedge_units, if_neg (not_lt.mpr h)]
  · intro port idx h
    by_cases hl : ((pct_change port).zip (pct_change idx)).length < 2
    · unfold calculate_portfolio_beta
      rw [if_pos hl]
    · unfold calculate_portfolio_beta
      rw [if_neg hl, if_pos h]
  · intro price p b hb
    rw [breakeven_cross_1, if_pos hb]
  · intro price p
    rw [breakeven_cross_1, if_neg (by simp)]

/-- C2 witness: the sentinel behavior at concrete inputs: hedge units at
index price 0, beta of a constant series, and the cross breakeven at
beta 2 and at beta 0. -/
theorem engine_sentinel_behavior_witness :
    hedge_units 2 1000 0 = 0 ∧
    calculate_portfolio_beta [1, 1, 1] [1, 1, 1] = 0 ∧
    breakeven_cross_1 100 5 2 = PyFloat.fin (100 + 5 / 2) ∧
    breakeven_cross_1 100 5 0 = PyFloat.inf :=
  ⟨engine_sentinel_behavior.1 2 1000 0 le_rfl,
   engine_sentinel_behavior.2.1 [1, 1, 1] [1, 1, 1]
     (by norm_num [pct_change, svar, mean, List.zip_cons_cons]),
   engine_sentinel_behavior.2.2.1 100 5 2 (by norm_num),
   engine_sentinel_behavior.2.2.2 100 5⟩

lemma clean_cons_none {r : RawRow} (t : List RawRow) (hc : r.close = none) :
    clean (r :: t) = clean t := by
  simp [clean, List.filterMap_cons, hc]

lemma clean_cons_some {r : RawRow} {c : ℚ} (t : List RawRow) (hc : r.close = some c) :
    clean (r :: t) = (r.date, c) :: clean t := by
  simp [clean, List.filterMap_cons, hc]

/-- Cleaning keeps exactly the rows whose close parsed, each mapped to its
date and close, in their original input order. -/
lemma clean_eq_filter (rows : List RawRow) :
    clean rows
      = (rows.filter (fun r => r.close.isSome)).map
          (fun r => (r.date, r.close.getD 0)) := by
  induction rows with
  | nil => rfl
  | cons r t ih =>
    cases hc : r.close with
    | none =>
      rw [clean_cons_none t hc, ih, List.filter_cons]
      simp [hc]
    | some c =>
      rw [clean_cons_some t hc, ih, List.filter_cons]
      simp [hc]

/-- The dates of the cleaned rows form a sublist of the input dates. -/
lemma clean_map_fst_sublist (rows : List RawRow) :
    ((clean rows).map Prod.fst).Sublist (rows.map RawRow.date) := by
  induction rows with
  | nil => simp [clean]
  | cons r t ih =>
    cases hc : r.close with
    | none =>
      rw [clean_cons_none t hc, List.map_cons]
      exact ih.cons r.date
    | some c =>
      rw [clean_cons_some t hc, List.map_cons, List.map_cons]
      exact ih.cons₂ r.date

/-- C8 counterexample: the cleaning step of src/app.py line 218 performs
no sort: on an input whose dates are out of order it keeps the rows in
their input order, so the output is not sorted ascending by date. -/
theorem clean_does_not_sort_counterexample :
    clean [⟨2, some 1⟩, ⟨1, some 2⟩] = [(2, 1), (1, 2)] ∧
    ¬ ((clean [⟨2, some 1⟩, ⟨1, some 2⟩]).map Prod.fst).Sorted
        (fun a b => a ≤ b) := by
  constructor
  · rfl
  · decide

/-- C8 amended: clean drops exactly the rows whose required close value is
the missing marker and keeps every other row in its input order (so the
output is sorted by date whenever the input is, as the sorted frames the
source consumes always are). -/
theorem clean_keeps_rows_in_order (rows : List RawRow)
    (hs : (rows.map RawRow.date).Sorted (fun a b => a ≤ b)) :
    ((clean rows).map Prod.fst).Sorted (fun a b => a ≤ b) ∧
    clean rows
      = (rows.filter (fun r => r.close.isSome)).map
          (fun r => (r.date, r.close.getD 0)) :=
  ⟨hs.sublist (clean_map_fst_sublist rows), clean_eq_filter rows⟩

/-- C8 witness: ten sorted rows of which exactly the seventh has a missing
close clean to exactly the nine other rows, still sorted by date. -/
theorem clean_rows10_witness :
    (rows10.map RawRow.date).Sorted (fun a b => a ≤ b) ∧
    ((clean rows10).map Prod.fst).Sorted (fun a b => a ≤ b) ∧
    clean rows10
      = (rows10.filter (fun r => r.close.isSome)).map
          (fun r => (r.date, r.close.getD 0)) ∧
    clean rows10
      = [(1, 10), (2, 11), (3, 12), (4, 13), (5, 14),
         (6, 15), (8, 17), (9, 18), (10, 19)] := by
  have hs : (rows10.map RawRow.date).Sorted (fun a b => a ≤ b) := by decide
  obtain ⟨h1, h2⟩ := clean_keeps_rows_in_order rows10 hs
  exact ⟨hs, h1, h2, rfl⟩

/-- C9: the engine is deterministic: a run depends only on its numeric
inputs, not on the ambient environment (wall clock, random seed), so two
runs on identical inputs give identical outputs. -/
theorem engine_deterministic (e1 e2 : EngineEnv)
    (spot k p shares pv iprice b : ℚ) (port idx : List ℚ) :
    engineRun e1 spot k p shares pv iprice b port idx
      = engineRun e2 spot k p shares pv iprice b port idx := rfl
